import Mathlib

/-!
Verification development for the instana_plugins repository.

The Python sources are shallowly embedded: numeric values are modelled as
rationals (Python floats are treated as exact decimals), SQLite tables as
lists of row structures, fallible storage as `Except Unit`, and fallible
parsing as `Option`.
-/

namespace MetadataStore

/-- Model of Python's built-in banker's rounding to an integer
(`round(x)` with no `ndigits`): round half to even. -/
def pyRoundHalfEven (q : ℚ) : ℤ :=
  let f : ℤ := ⌊q⌋
  let r : ℚ := q - (f : ℚ)
  if r < 1/2 then f
  else if 1/2 < r then f + 1
  else if f % 2 = 0 then f else f + 1

/-- Model of Python's `round(x, ndigits)`. -/
def pyRound (q : ℚ) (ndigits : ℕ) : ℚ :=
  ((pyRoundHalfEven (q * (10 : ℚ) ^ ndigits) : ℚ)) / (10 : ℚ) ^ ndigits

/-- Embedding of `MetadataStore.format_metric_value`
(src/common/metadata_store.py, lines 1242-1270). -/
def format_metric_value (value : ℚ) ( is_percentage is_counter : Bool)
    (decimal_places : ℕ) : ℚ :=
  let v := if is_percentage = true ∧ value ≤ 1 then value * 100 else value
  if is_counter = true then ((pyRoundHalfEven v : ℤ) : ℚ)
  else pyRound v decimal_places

end MetadataStore

namespace ProcessMonitor

/-- Attributes parsed for one matching process
(src/common/process_monitor.py, lines 120-127). -/
structure ProcInfo where
  ppid : String
  cpu : ℚ
  memory : ℚ
  command : String
deriving DecidableEq, Repr

/-- The parsed match map `pid -> {ppid, cpu, memory, command}`; dictionary
keys are the pid strings (src/common/process_monitor.py, line 109). -/
abbrev ProcessMap := List (String × ProcInfo)

/-- Parent classification test: the pid's ppid is not a key of the match
map, or equals the init pid marker `'1'`
(src/common/process_monitor.py, line 137). -/
def is_parent (m : ProcessMap) (info : ProcInfo) : Bool :=
  (m.lookup info.ppid).isNone || (info.ppid == "1")

/-- The entries of the match map classified as parents
(src/common/process_monitor.py, lines 135-139). -/
def parentEntries (m : ProcessMap) : ProcessMap :=
  m.filter (fun e => is_parent m e.2)

/-- The `parent_processes` pid list
(src/common/process_monitor.py, lines 135-139). -/
def parent_processes (m : ProcessMap) : List String :=
  (parentEntries m).map Prod.fst

/-- The per-pid probe capabilities used by the aggregation loop
(`get_disk_io_for_pid`, `get_file_descriptor_count`, `get_thread_count`,
`get_context_switches`); each probe already returns its fallback value on
failure, so they are modelled as total functions. -/
structure PidProbes where
  diskIO : String → ℤ × ℤ
  fileDescriptors : String → ℤ
  threads : String → ℤ
  ctxSwitches : String → ℤ × ℤ

/-- The aggregated snapshot returned by `get_process_metrics`
(src/common/process_monitor.py, lines 217-234); the optional per-core CPU
entries come from an external `pidstat` sampler and are outside this model. -/
structure AggregatedMetrics where
  cpu_usage : ℚ
  memory_usage : ℚ
  process_count : ℕ
  disk_read_bytes : ℤ
  disk_write_bytes : ℤ
  open_file_descriptors : ℤ
  thread_count : ℤ
  voluntary_ctx_switches : ℤ
  nonvoluntary_ctx_switches : ℤ
  monitored_pids : String
  max_threads_per_process : Option ℤ
  min_threads_per_process : Option ℤ
  avg_threads_per_process : Option ℚ
deriving DecidableEq, Repr

/-- Embedding of `get_process_metrics` from the parsed match map onward
(src/common/process_monitor.py, lines 108-241). -/
def get_process_metrics (probes : PidProbes) (m : ProcessMap) :
    Option AggregatedMetrics :=
  let parents := parentEntries m
  if parents.length = 0 then none
  else
    let total_cpu := parents.foldl (fun acc e => acc + e.2.cpu) 0
    let total_memory := parents.foldl (fun acc e => acc + e.2.memory) 0
    let total_disk_read := parents.foldl (fun acc e => acc + (probes.diskIO e.1).1) 0
    let total_disk_write := parents.foldl (fun acc e => acc + (probes.diskIO e.1).2) 0
    let total_open_fds := parents.foldl (fun acc e => acc + probes.fileDescriptors e.1) 0
    let thread_counts := parents.map (fun e => probes.threads e.1)
    let total_threads := thread_counts.foldl (· + ·) 0
    let total_vol := parents.foldl (fun acc e => acc + (probes.ctxSwitches e.1).1) 0
    let total_nonvol := parents.foldl (fun acc e => acc + (probes.ctxSwitches e.1).2) 0
    some {
      cpu_usage := MetadataStore.pyRound total_cpu 2
      memory_usage := MetadataStore.pyRound total_memory 2
      process_count := parents.length
      disk_read_bytes := total_disk_read
      disk_write_bytes := total_disk_write
      open_file_descriptors := total_open_fds
      thread_count := total_threads
      voluntary_ctx_switches := total_vol
      nonvoluntary_ctx_switches := total_nonvol
      monitored_pids := String.intercalate "," (parents.map Prod.fst)
      max_threads_per_process := if thread_counts.isEmpty then none else thread_counts.max?
      min_threads_per_process := if thread_counts.isEmpty then none else thread_counts.min?
      avg_threads_per_process :=
        if thread_counts.isEmpty then none
        else some (MetadataStore.pyRound ((total_threads : ℚ) / (thread_counts.length : ℚ)) 2) }

/-- The two-process snapshot of the end-to-end scenario: pid 10 (ppid 1,
cpu 5.0, mem 2.0) and pid 11 (ppid 10, cpu 3.0, mem 1.0). -/
def exampleMap : ProcessMap :=
  [("10", ⟨"1", 5, 2, "proc"⟩), ("11", ⟨"10", 3, 1, "proc"⟩)]

/-- Probes that report zero for every per-pid counter. -/
def zeroProbes : PidProbes :=
  ⟨fun _ => (0, 0), fun _ => 0, fun _ => 0, fun _ => (0, 0)⟩

end ProcessMonitor

namespace MetadataStore

/-- Schema-level state of the SQLite database: the user tables present, the
append-only `schema_version` log (in insertion order, so the latest row is
the last element), and whether the `metrics` table has the `otel_type`
column.  Row contents of the other tables are not part of this state. -/
structure DbState where
  tables : List String
  versions : List String
  otelColumn : Bool
deriving DecidableEq, Repr

/-- A database file with no tables at all. -/
def emptyDb : DbState := ⟨[], [], false⟩

/-- The six canonical tables, in creation order
(src/common/metadata_store.py, lines 279-402 and 244-277). -/
def canonicalTables : List String :=
  ["hosts", "service_namespaces", "services", "metrics", "format_rules", "schema_version"]

/-- Embedding of `MetadataStore._get_current_schema_version`
(src/common/metadata_store.py, lines 214-242): `none` when the
`schema_version` table is missing or empty, otherwise the row with the
latest `updated_date`. -/
def _get_current_schema_version (s : DbState) : Option String :=
  if "schema_version" ∈ s.tables then s.versions.getLast? else none

/-- Embedding of `MetadataStore._set_schema_version`
(src/common/metadata_store.py, lines 244-277): create the `schema_version`
table if needed and append one row. -/
def _set_schema_version (version : String) (s : DbState) : DbState :=
  { tables := if "schema_version" ∈ s.tables then s.tables else s.tables ++ ["schema_version"]
    versions := s.versions ++ [version]
    otelColumn := s.otelColumn }

/-- Embedding of `MetadataStore._migrate_to_version_1_0`
(src/common/metadata_store.py, lines 279-402): wipe the whole database file
if any table exists, create the five v1.0 tables, then record version
`"1.0"`. -/
def _migrate_to_version_1_0 (s : DbState) : DbState :=
  let wiped := if s.tables ≠ [] then emptyDb else s
  _set_schema_version "1.0"
    { tables := ["hosts", "service_namespaces", "services", "metrics", "format_rules"]
      versions := wiped.versions
      otelColumn := false }

/-- Embedding of `MetadataStore._migrate_to_version_2_0`
(src/common/metadata_store.py, lines 404-457): add the `otel_type` column
if missing, then record version `"2.0"`.  The per-row back-fill touches row
contents only, which are outside `DbState`. -/
def _migrate_to_version_2_0 (s : DbState) : DbState :=
  _set_schema_version "2.0" { s with otelColumn := true }

/-- Embedding of `MetadataStore._run_migrations`
(src/common/metadata_store.py, lines 459-491). -/
def _run_migrations (target : String) (s : DbState) : DbState :=
  match _get_current_schema_version s with
  | none =>
    if target = "2.0" then _migrate_to_version_2_0 (_migrate_to_version_1_0 s)
    else _migrate_to_version_1_0 s
  | some current =>
    if current = target then s
    else if current = "1.0" ∧ target = "2.0" then _migrate_to_version_2_0 s
    else if target = "1.0" then _migrate_to_version_1_0 s
    else s

/-- ASCII lowercasing of one character, modelling `str.lower()`.  Exotic
non-ASCII case mappings (which Python applies before the pipeline replaces
every character outside `[a-z0-9]` with `'_'`) are not modelled. -/
def pyLowerChar (c : Char) : Char :=
  if 'A' ≤ c ∧ c ≤ 'Z' then Char.ofNat (c.toNat + 32) else c

/-- Character class `[a-z0-9]` of the sanitization regexes. -/
def isLowerAlnum (c : Char) : Bool :=
  decide (('a' ≤ c ∧ c ≤ 'z') ∨ ('0' ≤ c ∧ c ≤ '9'))

/-- ASCII digit test (`str.isdigit` restricted to the characters that can
reach step 5, which are all ASCII). -/
def isAsciiDigit (c : Char) : Bool :=
  decide ('0' ≤ c ∧ c ≤ '9')

/-- Step 2 of `sanitize_for_metrics`: `re.sub(r'[^a-z0-9]', '_', ...)`
applied to one character. -/
def replaceNonAlnum (c : Char) : Char :=
  if isLowerAlnum c then c else '_'

/-- Step 3 of `sanitize_for_metrics`: `re.sub(r'_+', '_', ...)`, collapsing
each run of underscores to a single one. -/
def collapseUnderscores : List Char → List Char
  | [] => []
  | [c] => [c]
  | a :: b :: t =>
    if a = '_' ∧ b = '_' then collapseUnderscores (b :: t)
    else a :: collapseUnderscores (b :: t)

/-- Removal of trailing underscores (the right half of `str.strip('_')`). -/
def stripTrailing : List Char → List Char
  | [] => []
  | c :: t =>
    let r := stripTrailing t
    if r = [] ∧ c = '_' then [] else c :: r

/-- Step 4 of `sanitize_for_metrics`: `result.strip('_')`. -/
def stripUnderscores (l : List Char) : List Char :=
  stripTrailing (l.dropWhile (fun c => c == '_'))

/-- Embedding of `MetadataStore.sanitize_for_metrics`
(src/common/metadata_store.py, lines 98-131), on character lists. -/
def sanitizeChars (s : List Char) : List Char :=
  if s = [] then "unknown".data
  else
    let r1 := s.map pyLowerChar
    let r2 := r1.map replaceNonAlnum
    let r3 := collapseUnderscores r2
    let r4 := stripUnderscores r3
    let r5 := match r4 with
      | [] => r4
      | c :: _ => if isAsciiDigit c then "metric_".data ++ r4 else r4
    if r5 = [] then "unknown".data else r5

/-- Embedding of `MetadataStore.sanitize_for_metrics`
(src/common/metadata_store.py, lines 98-131). -/
def sanitize_for_metrics (s : String) : String :=
  ⟨sanitizeChars s.data⟩

/-- Character class of fully sanitized output: `[a-z0-9_]`. -/
def goodChar (c : Char) : Bool :=
  isLowerAlnum c || c == '_'

/-- No two adjacent underscores. -/
def noUU : List Char → Bool
  | [] => true
  | [_] => true
  | a :: b :: t => !(a == '_' && b == '_') && noUU (b :: t)

/-- Syntactic characterization of sanitized output: non-empty, only
`[a-z0-9_]` characters, no underscore run, no leading or trailing
underscore, and not starting with a digit. -/
def isSanitized : List Char → Bool
  | [] => false
  | c :: t =>
    !(c == '_') && !(isAsciiDigit c) && (c :: t).all goodChar && noUU (c :: t)
      && !((c :: t).getLast? == some '_')

/-- Spec §4.3 step 3 (collapse runs of `'_'`), written as a right fold, for
comparison with the source's `collapseUnderscores`. -/
def collapseSpec (l : List Char) : List Char :=
  l.foldr (fun c acc => if c = '_' ∧ acc.head? = some '_' then acc else c :: acc) []

/-- Spec §4.3 step 4 (trim leading and trailing `'_'`), written via
`dropWhile` on both ends. -/
def trimSpec (l : List Char) : List Char :=
  ((l.dropWhile (fun c => c == '_')).reverse.dropWhile (fun c => c == '_')).reverse

/-- Reference algorithm for name sanitization, following the spec's own
six-step wording: lowercase; replace every character outside `[a-z0-9]`
with `'_'`; collapse runs of `'_'`; trim leading/trailing `'_'`; a result
starting with a digit gets the `metric_` marker prepended; an empty result
becomes the literal `unknown`. -/
def sanitizeSpec (s : String) : String :=
  let r1 := s.data.map pyLowerChar
  let r2 := r1.map replaceNonAlnum
  let r3 := collapseSpec r2
  let r4 := trimSpec r3
  let r5 := match r4 with
    | [] => r4
    | c :: _ => if isAsciiDigit c then "metric_".data ++ r4 else r4
  if r5 = [] then "unknown" else ⟨r5⟩

end MetadataStore


namespace MetadataStore

/-- ASCII uppercasing of one character, modelling `str.upper()` on the
ASCII names this pipeline handles. -/
def pyUpperChar (c : Char) : Char :=
  if 'a' ≤ c ∧ c ≤ 'z' then Char.ofNat (c.toNat - 32) else c

/-- Model of Python's `str.capitalize()`: first character title-cased, the
rest lowercased. -/
def pyCapitalize : List Char → List Char
  | [] => []
  | c :: t => pyUpperChar c :: t.map pyLowerChar

/-- Regex word-character class `\w` (ASCII). -/
def isWordChar (c : Char) : Bool :=
  isLowerAlnum (pyLowerChar c) || c == '_'

/-- The special case `re.match(r'cpu_core_(\d+)', name)` of
`_format_metric_name` (src/common/metadata_store.py, lines 1033-1035):
anchored at the start, it captures the maximal leading digit run after
`cpu_core_`. -/
def cpuCoreMatch (l : List Char) : Option (List Char) :=
  match l with
  | 'c' :: 'p' :: 'u' :: '_' :: 'c' :: 'o' :: 'r' :: 'e' :: '_' :: rest =>
    let ds := rest.takeWhile isAsciiDigit
    if ds = [] then none else some ds
  | _ => none

/-- Whether the character before the current scan position (if any) is a
word character; `none` is the start of the string. -/
def notWordOpt : Option Char → Bool
  | none => true
  | some p => !(isWordChar p)

/-- Whether the character after a candidate match (if any) is a word
character. -/
def notWordHead : List Char → Bool
  | [] => true
  | d :: _ => !(isWordChar d)

/-- The left-to-right, non-overlapping replacement
`re.sub(r'\bcpu\b', 'CPU', ..., re.IGNORECASE)` of `_format_metric_name`
(src/common/metadata_store.py, line 1041). -/
def replaceCpuWord : Option Char → List Char → List Char
  | _, [] => []
  | _, [c] => [c]
  | _, [c1, c2] => [c1, c2]
  | prev, c1 :: c2 :: c3 :: rest =>
    if pyLowerChar c1 = 'c' ∧ pyLowerChar c2 = 'p' ∧ pyLowerChar c3 = 'u'
        ∧ notWordOpt prev = true ∧ notWordHead rest = true then
      'C' :: 'P' :: 'U' :: replaceCpuWord (some 'U') rest
    else
      c1 :: replaceCpuWord (some c1) (c2 :: c3 :: rest)

/-- Model of Python's `str.split()` with no separator: split on whitespace
runs, discarding empty chunks. -/
def pySplitWhitespace (l : List Char) : List (List Char) :=
  (l.splitOnP (fun c => c.isWhitespace)).filter (fun w => w ≠ [])

/-- The per-word capitalization step of `_format_metric_name`
(src/common/metadata_store.py, lines 1044-1049): words whose uppercasing
is `CPU` are kept, every other word is capitalized. -/
def formatWord (w : List Char) : List Char :=
  if w.map pyUpperChar = "CPU".data then w else pyCapitalize w

/-- Embedding of `MetadataStore._format_metric_name`
(src/common/metadata_store.py, lines 1022-1051). -/
def _format_metric_name (name : String) : String :=
  match cpuCoreMatch name.data with
  | some ds => ⟨"CPU ".data ++ ds⟩
  | none =>
    let spaced := name.data.map (fun c => if c == '_' then ' ' else c)
    let cpued := replaceCpuWord none spaced
    let words := pySplitWhitespace cpued
    ⟨List.intercalate [' '] (words.map formatWord)⟩

/-- The search `re.search(r'\.python\.(.+)$', full_name)` applied at one
position: the marker must be followed by at least one character. -/
def pythonMarkerAt : List Char → Option (List Char)
  | '.' :: 'p' :: 'y' :: 't' :: 'h' :: 'o' :: 'n' :: '.' :: rest =>
    if rest = [] then none else some rest
  | _ => none

/-- Leftmost-position search for the `.python.` marker with a non-empty
remainder, as `re.search` performs it. -/
def findPythonMarker : List Char → Option (List Char)
  | [] => none
  | c :: t =>
    match pythonMarkerAt (c :: t) with
    | some r => some r
    | none => findPythonMarker t

/-- Embedding of `MetadataStore._extract_service_display_name`
(src/common/metadata_store.py, lines 1000-1020). -/
def _extract_service_display_name (full_name : String) : String :=
  match findPythonMarker full_name.data with
  | some base => _format_metric_name ⟨base⟩
  | none =>
    let parts := full_name.splitOn "."
    _format_metric_name (parts.getLastD full_name)

/-- A `hosts` row (timestamps are not modelled). -/
structure HostRow where
  id : String
  hostname : String
deriving DecidableEq, Repr

/-- Embedding of `MetadataStore.get_or_create_host`
(src/common/metadata_store.py, lines 493-545).  The storage argument is
`.error ()` when the underlying SQLite layer raises `sqlite3.Error`; the
caught exception leads to the fresh-identifier fallback of lines 542-545. -/
def get_or_create_host (st : Except Unit (List HostRow)) (hostname : String)
    (freshId : String) : String × Except Unit (List HostRow) :=
  match st with
  | .error e => (freshId, .error e)
  | .ok tbl =>
    match tbl.find? (fun r => r.hostname == hostname) with
    | some r => (r.id, .ok tbl)
    | none => (freshId, .ok (tbl ++ [{ id := freshId, hostname := hostname }]))

/-- A `service_namespaces` row (timestamps are not modelled). -/
structure NamespaceRow where
  id : String
  namespace_ : String
deriving DecidableEq, Repr

/-- Embedding of `MetadataStore.get_or_create_service_namespace`
(src/common/metadata_store.py, lines 547-599). -/
def get_or_create_service_namespace (st : Except Unit (List NamespaceRow))
    (namespace_ : String) (freshId : String) : String × Except Unit (List NamespaceRow) :=
  match st with
  | .error e => (freshId, .error e)
  | .ok tbl =>
    match tbl.find? (fun r => r.namespace_ == namespace_) with
    | some r => (r.id, .ok tbl)
    | none => (freshId, .ok (tbl ++ [{ id := freshId, namespace_ := namespace_ }]))

/-- A `services` row (timestamps are not modelled). -/
structure ServiceRow where
  id : String
  full_name : String
  display_name : String
  version : String
  description : String
  host_id : Option String
  namespace_id : Option String
deriving DecidableEq, Repr

/-- Embedding of `MetadataStore.get_or_create_service`
(src/common/metadata_store.py, lines 601-696).  The nested host and
namespace upserts never raise (they have their own fallback), so their
results are taken as the `host_id`/`namespace_id` arguments. -/
def get_or_create_service (st : Except Unit (List ServiceRow))
    (full_name version description : String)
    (host_id namespace_id : Option String) (freshId : String) :
    (String × String) × Except Unit (List ServiceRow) :=
  let sanitized_name := sanitize_for_metrics full_name
  let display_name := _extract_service_display_name full_name
  match st with
  | .error e => ((freshId, display_name), .error e)
  | .ok tbl =>
    match tbl.find? (fun r => r.full_name == sanitized_name) with
    | some r =>
      let v := if version = "" then r.version else version
      let d := if description = "" then r.description else description
      ((r.id, display_name), .ok (tbl.map fun row =>
        if row.id == r.id then
          { row with
            display_name := display_name
            version := v
            description := d
            host_id := host_id
            namespace_id := namespace_id }
        else row))
    | none =>
      ((freshId, display_name), .ok (tbl ++ [{
        id := freshId
        full_name := sanitized_name
        display_name := display_name
        version := version
        description := description
        host_id := host_id
        namespace_id := namespace_id }]))

/-- A `metrics` row (timestamps are not modelled; under the v1.0 schema the
`otel_type` field is phantom). -/
structure MetricRow where
  id : String
  service_id : String
  name : String
  display_name : String
  unit : String
  format_type : String
  decimal_places : ℤ
  is_percentage : Bool
  is_counter : Bool
  otel_type : String
deriving DecidableEq, Repr

/-- Embedding of `MetadataStore.get_or_create_metric`
(src/common/metadata_store.py, lines 698-825), with the SQL built by
`_build_metrics_query` (lines 40-96).  `includeOtelType` is the cached
schema test `'otel_type' in self.metrics_columns`.  On a hit, the UPDATE
sets `display_name`, `unit`, `format_type`, `decimal_places`,
`is_percentage`, optionally `otel_type`, and `last_seen` — it does not set
`is_counter`. -/
def get_or_create_metric (includeOtelType : Bool) (st : Except Unit (List MetricRow))
    (service_id name unit format_type : String) (decimal_places : ℤ)
    ( is_percentage is_counter : Bool) (otel_type : String) (freshId : String) :
    (String × String) × Except Unit (List MetricRow) :=
  let display_name := _format_metric_name name
  match st with
  | .error e => ((freshId, display_name), .error e)
  | .ok tbl =>
    match tbl.find? (fun r => r.service_id == service_id && r.name == name) with
    | some r =>
      ((r.id, display_name), .ok (tbl.map fun row =>
        if row.id == r.id then
          { row with
            display_name := display_name
            unit := unit
            format_type := format_type
            decimal_places := decimal_places
            is_percentage := is_percentage
            otel_type := if includeOtelType then otel_type else row.otel_type }
        else row))
    | none =>
      ((freshId, display_name), .ok (tbl ++ [{
        id := freshId
        service_id := service_id
        name := name
        display_name := display_name
        unit := unit
        format_type := format_type
        decimal_places := decimal_places
        is_percentage := is_percentage
        is_counter := is_counter
        otel_type := if includeOtelType then otel_type else "Gauge" }]))

/-- Embedding of `MetadataStore.sync_metric_from_toml`
(src/common/metadata_store.py, lines 1085-1131). -/
def sync_metric_from_toml (includeOtelType : Bool) (st : Except Unit (List MetricRow))
    (service_id name unit otel_type : String) (decimals : ℤ)
    ( is_percentage is_counter : Bool) (freshId : String) :
    (String × String) × Except Unit (List MetricRow) :=
  get_or_create_metric includeOtelType st service_id name unit
    (if is_counter then "counter" else if is_percentage then "percentage" else "number")
    decimals is_percentage is_counter otel_type freshId

/-- Embedding of `MetadataStore.remove_obsolete_metrics`
(src/common/metadata_store.py, lines 1196-1240): collect the rows of the
service whose name is not in the current set, then delete each by id. -/
def remove_obsolete_metrics (st : Except Unit (List MetricRow)) (service_id : String)
    (current_metric_names : List String) : ℕ × Except Unit (List MetricRow) :=
  match st with
  | .error e => (0, .error e)
  | .ok tbl =>
    let metrics_to_remove := tbl.filter
      (fun r => r.service_id == service_id && !(current_metric_names.contains r.name))
    (metrics_to_remove.length,
     .ok (tbl.filter (fun r => !(metrics_to_remove.any (fun x => x.id == r.id)))))

/-- One expanded catalog entry, with the fields `sync_metric_from_toml`
consumes. -/
structure CatalogEntry where
  name : String
  unit : String
  otel_type : String
  decimals : ℤ
  is_percentage : Bool
  is_counter : Bool
deriving DecidableEq, Repr

/-- The upsert loop of reconciliation: every catalog entry is synced via
`sync_metric_from_toml`, consuming one fresh identifier per entry. -/
def upsertCatalog (includeOtelType : Bool) (service_id : String) :
    List CatalogEntry → List String → Except Unit (List MetricRow)
      → Except Unit (List MetricRow)
  | [], _, st => st
  | e :: rest, freshIds, st =>
    upsertCatalog includeOtelType service_id rest freshIds.tail
      (sync_metric_from_toml includeOtelType st service_id e.name e.unit e.otel_type
        e.decimals e.is_percentage e.is_counter (freshIds.headD "")).2

/-- Modelled from the spec: the reconciliation orchestration of §4.4 —
"every catalog entry is upserted ...; every registry metric not present in
the expanded catalog by name is deleted".  The loop itself has no caller
under src/; its two component operations (`sync_metric_from_toml` and
`remove_obsolete_metrics`) are embedded from the source above. -/
def reconcile (includeOtelType : Bool) (st : Except Unit (List MetricRow))
    (service_id : String) (catalog : List CatalogEntry) (freshIds : List String) :
    Except Unit (List MetricRow) :=
  (remove_obsolete_metrics
    (upsertCatalog includeOtelType service_id catalog freshIds st)
    service_id (catalog.map (fun e => e.name))).2


/-- A concrete stored metric row used to exercise the upsert paths. -/
def c4row (ic : Bool) : MetricRow :=
  { id := "id1"
    service_id := "svc"
    name := "m"
    display_name := "M"
    unit := ""
    format_type := "number"
    decimal_places := 2
    is_percentage := false
    is_counter := ic
    otel_type := "Gauge" }


/-- A two-entry expanded catalog used to exercise reconciliation. -/
def c4catalog : List CatalogEntry :=
  [{ name := "m"
     unit := ""
     otel_type := "Gauge"
     decimals := 2
     is_percentage := false
     is_counter := false },
   { name := "new"
     unit := "%"
     otel_type := "Gauge"
     decimals := 2
     is_percentage := true
     is_counter := false }]

/-- Fresh identifiers for the reconciliation example. -/
def c4fresh : List String := ["f1", "f2"]

end MetadataStore


namespace TomlUtils

/-- One metric definition record of the declarative catalog; the three
`pattern_*` fields are present only on templated definitions
(src/common/toml_utils.py, lines 161-208). -/
structure MetricDef where
  name : String
  description : String
  unit : String
  decimals : ℤ
  is_percentage : Bool
  is_counter : Bool
  otel_type : String
  pattern_type : Option String
  pattern_source : Option String
  pattern_range : Option String
deriving DecidableEq, Repr

/-- Split a character list at every occurrence of `c`, as Python's
`str.split(c)` does (so the empty string yields one empty part). -/
def splitOnChar (c : Char) : List Char → List (List Char)
  | [] => [[]]
  | a :: rest =>
    if a = c then [] :: splitOnChar c rest
    else
      match splitOnChar c rest with
      | [] => [[a]]
      | h :: t => (a :: h) :: t

/-- Value of an ASCII decimal digit. -/
def digitVal (c : Char) : ℕ := c.toNat - 48

/-- Accumulate a decimal digit list into a natural number. -/
def natOfDigits (l : List Char) : ℕ := l.foldl (fun a c => 10 * a + digitVal c) 0

/-- ASCII decimal digit test (shared with the display-name code below would
be circular in file order, so restated here). -/
def isDigitChar (c : Char) : Bool := decide ('0' ≤ c) && decide (c ≤ '9')

/-- Python's `int(str)` on a plain optionally-signed decimal literal;
`none` models the `ValueError` on anything else.  (Python additionally
tolerates surrounding whitespace and `_` digit separators; range
specifications never use them and they are not modelled.) -/
def parseInt? (l : List Char) : Option ℤ :=
  match l with
  | [] => none
  | '-' :: rest =>
    if rest ≠ [] ∧ rest.all isDigitChar then some (-(natOfDigits rest : ℤ)) else none
  | '+' :: rest =>
    if rest ≠ [] ∧ rest.all isDigitChar then some ((natOfDigits rest : ℤ)) else none
  | _ => if l.all isDigitChar then some ((natOfDigits l : ℤ)) else none

/-- Embedding of `_parse_range` (src/common/toml_utils.py, lines 210-220);
`none` models the `ValueError`/`IndexError` a malformed specification
raises. -/
def _parse_range (range_spec : String) (max_count : ℤ) : Option (ℤ × ℤ) :=
  match splitOnChar '-' range_spec.data with
  | p0 :: p1 :: _ =>
    match parseInt? p0 with
    | none => none
    | some s =>
      if p1 = "auto".data then some (s, max_count)
      else
        match parseInt? p1 with
        | none => none
        | some e => some (s, e + 1)
  | _ => none

/-- Python's `range(s, e)` as a list of integers. -/
def rangeList (s e : ℤ) : List ℤ :=
  (List.range (e - s).toNat).map (fun i => s + (i : ℤ))

/-- Left-to-right, non-overlapping replacement of the literal placeholder
`\x7bindex\x7d` by `repl`, as Python's `str.replace` performs on this
pattern. -/
def replaceIndexChars (repl : List Char) : List Char → List Char
  | '\x7b' :: 'i' :: 'n' :: 'd' :: 'e' :: 'x' :: '\x7d' :: rest => repl ++ replaceIndexChars repl rest
  | c :: rest => c :: replaceIndexChars repl rest
  | [] => []

/-- `s.replace('\x7bindex\x7d', str(i))` of the expansion loop. -/
def pyReplaceIndex (s : String) (i : ℤ) : String :=
  ⟨replaceIndexChars (toString i).data s.data⟩

/-- One expansion step: substitute the index into the name and description
templates and strip the pattern fields
(src/common/toml_utils.py, lines 194-203). -/
def substIndex (d : MetricDef) (i : ℤ) : MetricDef :=
  { d with
    name := pyReplaceIndex d.name i
    description := pyReplaceIndex d.description i
    pattern_type := none
    pattern_source := none
    pattern_range := none }

/-- Expansion of a single catalog definition
(src/common/toml_utils.py, lines 173-206).  `cpu_count` models
`os.cpu_count()` (`none` when unavailable; `or 1` supplies the fallback);
an unsupported `pattern_source` warns and resolves to 1; a `pattern_type`
other than `indexed` contributes nothing; a templated definition lacking
its source or range raises `KeyError`, modelled as `none`. -/
def expandOne (d : MetricDef) (cpu_count : Option ℕ) : Option (List MetricDef) :=
  match d.pattern_type with
  | none => some [d]
  | some pt =>
    if pt = "indexed" then
      match d.pattern_source, d.pattern_range with
      | some source, some range_spec =>
        let max_count : ℤ := if source = "cpu_count" then ((cpu_count.getD 1 : ℕ) : ℤ) else 1
        match _parse_range range_spec max_count with
        | none => none
        | some (s, e) => some ((rangeList s e).map (substIndex d))
      | _, _ => none
    else some []

/-- Embedding of `expand_metric_patterns`
(src/common/toml_utils.py, lines 161-208). -/
def expand_metric_patterns : List MetricDef → Option ℕ → Option (List MetricDef)
  | [], _ => some []
  | d :: rest, cc =>
    match expandOne d cc, expand_metric_patterns rest cc with
    | some chunk, some tail => some (chunk ++ tail)
    | _, _ => none

/-- The templated per-core CPU definition of the expansion example. -/
def cpuCoreTemplate : MetricDef :=
  { name := "cpu_core_\x7bindex\x7d"
    description := "CPU core \x7bindex\x7d usage"
    unit := "%"
    decimals := 2
    is_percentage := true
    is_counter := false
    otel_type := "Gauge"
    pattern_type := some "indexed"
    pattern_source := some "cpu_count"
    pattern_range := some "0-auto" }

/-- The concrete per-core CPU definition the example expands to. -/
def cpuCoreConcrete (i : ℤ) : MetricDef :=
  { name := "cpu_core_" ++ toString i
    description := "CPU core " ++ toString i ++ " usage"
    unit := "%"
    decimals := 2
    is_percentage := true
    is_counter := false
    otel_type := "Gauge"
    pattern_type := none
    pattern_source := none
    pattern_range := none }

end TomlUtils

section FormatValueTheorems

open MetadataStore

/-- Claim C7: `format_metric_value` multiplies the value by 100 iff
`is_percentage` is true and the value is ≤ 1.0 (a value > 1.0 is left
unscaled); if `is_counter` is true it returns the value rounded to an
integer; otherwise it rounds to the configured decimal places.  In
particular `format_metric_value 0.75 is_percentage=True = 75.0`,
`format_metric_value 75.0 is_percentage=True = 75.0`, and
`format_metric_value 75.6 is_counter=True = 76`. -/
theorem claim_C7 :
    (∀ (v : ℚ) (d : ℕ), v ≤ 1 →
        format_metric_value v true false d = pyRound (v * 100) d)
  ∧ (∀ (v : ℚ) (d : ℕ), 1 < v →
        format_metric_value v true false d = pyRound v d)
  ∧ (∀ (v : ℚ) (d : ℕ),
        format_metric_value v false true d = ((pyRoundHalfEven v : ℤ) : ℚ))
  ∧ (∀ (v : ℚ) (d : ℕ), format_metric_value v false false d = pyRound v d)
  ∧ format_metric_value (3/4) true false 2 = 75
  ∧ format_metric_value 75 true false 2 = 75
  ∧ format_metric_value (378/5) false true 2 = 76 := by
  refine ⟨?_, ?_, ?_, ?_, ?_, ?_, ?_⟩
  · intro v d h
    simp [format_metric_value, h]
  · intro v d h
    simp [format_metric_value, h.not_le]
  · intro v d
    simp [format_metric_value]
  · intro v d
    simp [format_metric_value]
  · simp only [format_metric_value, pyRound, pyRoundHalfEven]
    norm_num
  · simp only [format_metric_value, pyRound, pyRoundHalfEven]
    norm_num
  · simp only [format_metric_value, pyRound, pyRoundHalfEven]
    norm_num

/-- Witness for claim C7 at the concrete input `v = 1`. -/
theorem claim_C7_witness :
    (1 : ℚ) ≤ 1 ∧ format_metric_value 1 true false 2 = pyRound ((1 : ℚ) * 100) 2 :=
  ⟨le_refl 1, claim_C7.1 1 2 (le_refl 1)⟩

/-- Claim C10: when both `is_percentage` and `is_counter` are set, the
percentage scaling is applied before the integer conversion (a value
v ≤ 1.0 yields `int(round(100 * v))`, e.g. 0.6 yields 60), and with
`is_counter` the result is always an integer. -/
theorem claim_C10 :
    (∀ (v : ℚ) (d : ℕ), v ≤ 1 →
        format_metric_value v true true d = ((pyRoundHalfEven (v * 100) : ℤ) : ℚ))
  ∧ (∀ (v : ℚ) (p : Bool) (d : ℕ), ∃ k : ℤ, format_metric_value v p true d = (k : ℚ))
  ∧ format_metric_value (3/5) true true 2 = 60
  ∧ format_metric_value (753/1000) true true 2 = 75 := by
  refine ⟨?_, ?_, ?_, ?_⟩
  · intro v d h
    simp [format_metric_value, h]
  · intro v p d
    exact ⟨pyRoundHalfEven (if p = true ∧ v ≤ 1 then v * 100 else v), by
      simp [format_metric_value]⟩
  · simp only [format_metric_value, pyRound, pyRoundHalfEven]
    norm_num
  · simp only [format_metric_value, pyRound, pyRoundHalfEven]
    norm_num

/-- Witness for claim C10 at the concrete input `v = 1`. -/
theorem claim_C10_witness :
    (1 : ℚ) ≤ 1 ∧ format_metric_value 1 true true 2 = ((pyRoundHalfEven ((1 : ℚ) * 100) : ℤ) : ℚ) :=
  ⟨le_refl 1, claim_C10.1 1 2 (le_refl 1)⟩

end FormatValueTheorems

section ProcessMonitorTheorems

open ProcessMonitor

/-- Auxiliary: a left fold that adds `f e` at each step computes the sum of
the mapped list. -/
theorem foldl_add_map {α β : Type} [AddCommMonoid β] (f : α → β) :
    ∀ (l : List α) (a : β), l.foldl (fun acc e => acc + f e) a = a + (l.map f).sum := by
  intro l
  induction l with
  | nil => intro a; simp
  | cons x t ih =>
    intro a
    simp [List.foldl_cons, ih, add_assoc]

/-- Auxiliary: the entries kept by a filter and those rejected by it
partition the list. -/
theorem filter_length_partition {α : Type} (p : α → Bool) :
    ∀ (l : List α), (l.filter p).length + (l.filter (fun a => !(p a))).length = l.length := by
  intro l
  induction l with
  | nil => rfl
  | cons x t ih => cases hx : p x <;> simp [List.filter_cons, hx] <;> omega

/-- Claim C1: in the parsed match map, a pid is classified as a unit (root)
iff its ppid is not itself a key of the map or its ppid equals the init pid
marker `'1'`; every other matched pid is a descendant and is not counted in
`process_count`. -/
theorem claim_C1 :
    ∀ (m : ProcessMap), (m.map Prod.fst).Nodup →
    ∀ pid info, (pid, info) ∈ m →
      ((pid ∈ parent_processes m ↔ (m.lookup info.ppid = none ∨ info.ppid = "1"))
       ∧ ∀ (probes : PidProbes) (agg : AggregatedMetrics),
           get_process_metrics probes m = some agg →
           agg.process_count
             + (m.filter (fun e => !(is_parent m e.2))).length = m.length) := by
  intro m hnd pid info hmem
  constructor
  · constructor
    · intro hp
      obtain ⟨e, he, hfst⟩ := List.mem_map.1 hp
      obtain ⟨hem, hpar⟩ := List.mem_filter.1 he
      have he2 : e = (pid, info) :=
        List.inj_on_of_nodup_map hnd hem hmem hfst
      rw [he2] at hpar
      simpa [is_parent, Option.isNone_iff_eq_none] using hpar
    · intro h
      refine List.mem_map.2 ⟨(pid, info), List.mem_filter.2 ⟨hmem, ?_⟩, rfl⟩
      simpa [is_parent, Option.isNone_iff_eq_none] using h
  · intro probes agg hagg
    simp only [get_process_metrics] at hagg
    split at hagg
    · exact absurd hagg (by simp)
    · have hcount : agg.process_count = (parentEntries m).length := by
        have := Option.some.inj hagg
        rw [← this]
      rw [hcount]
      exact filter_length_partition _ m

/-- Witness for claim C1 on the two-process example snapshot, at pid 10. -/
theorem claim_C1_witness :
    ((exampleMap.map Prod.fst).Nodup
      ∧ ("10", (⟨"1", 5, 2, "proc"⟩ : ProcInfo)) ∈ exampleMap)
    ∧ (("10" ∈ parent_processes exampleMap ↔
          (exampleMap.lookup "1" = none ∨ "1" = "1"))
       ∧ ∀ (probes : PidProbes) (agg : AggregatedMetrics),
           get_process_metrics probes exampleMap = some agg →
           agg.process_count
             + (exampleMap.filter (fun e => !(is_parent exampleMap e.2))).length
             = exampleMap.length) :=
  ⟨⟨by decide, List.mem_cons_self _ _⟩,
   claim_C1 exampleMap (by decide) "10" ⟨"1", 5, 2, "proc"⟩ (List.mem_cons_self _ _)⟩

/-- Claim C2: for every snapshot with a non-empty unit set the aggregate's
`process_count` is the number of units and `cpu_usage`/`memory_usage` are
the sums of the per-unit values rounded to 2 decimal places; on the
two-process example the aggregate is `process_count = 1`, `cpu_usage = 5.0`,
`memory_usage = 2.0`. -/
theorem claim_C2 :
    (∀ (probes : PidProbes) (m : ProcessMap), parentEntries m ≠ [] →
      ∃ agg, get_process_metrics probes m = some agg
        ∧ agg.process_count = (parentEntries m).length
        ∧ agg.cpu_usage =
            MetadataStore.pyRound ((parentEntries m).map (fun e => e.2.cpu)).sum 2
        ∧ agg.memory_usage =
            MetadataStore.pyRound ((parentEntries m).map (fun e => e.2.memory)).sum 2)
    ∧ (∃ agg, get_process_metrics zeroProbes exampleMap = some agg
        ∧ agg.process_count = 1 ∧ agg.cpu_usage = 5 ∧ agg.memory_usage = 2) := by
  have hgen : ∀ (probes : PidProbes) (m : ProcessMap), parentEntries m ≠ [] →
      ∃ agg, get_process_metrics probes m = some agg
        ∧ agg.process_count = (parentEntries m).length
        ∧ agg.cpu_usage =
            MetadataStore.pyRound ((parentEntries m).map (fun e => e.2.cpu)).sum 2
        ∧ agg.memory_usage =
            MetadataStore.pyRound ((parentEntries m).map (fun e => e.2.memory)).sum 2 := by
    intro probes m h
    have hlen : ¬((parentEntries m).length = 0) := by
      simpa [List.length_eq_zero] using h
    simp only [get_process_metrics]
    rw [if_neg hlen]
    refine ⟨_, rfl, rfl, ?_, ?_⟩
    · show MetadataStore.pyRound ((parentEntries m).foldl (fun acc e => acc + e.2.cpu) 0) 2 = _
      rw [foldl_add_map (fun e : String × ProcInfo => e.2.cpu) (parentEntries m) 0, zero_add]
    · show MetadataStore.pyRound ((parentEntries m).foldl (fun acc e => acc + e.2.memory) 0) 2 = _
      rw [foldl_add_map (fun e : String × ProcInfo => e.2.memory) (parentEntries m) 0, zero_add]
  refine ⟨hgen, ?_⟩
  have hpe : parentEntries exampleMap = [("10", ⟨"1", 5, 2, "proc"⟩)] := rfl
  obtain ⟨agg, hsome, hc, hcpu, hmem⟩ :=
    hgen zeroProbes exampleMap (by rw [hpe]; exact List.cons_ne_nil _ _)
  refine ⟨agg, hsome, ?_, ?_, ?_⟩
  · rw [hc, hpe]
    rfl
  · rw [hcpu, hpe]
    show MetadataStore.pyRound ((5 : ℚ) + 0) 2 = 5
    simp only [MetadataStore.pyRound, MetadataStore.pyRoundHalfEven]
    norm_num
  · rw [hmem, hpe]
    show MetadataStore.pyRound ((2 : ℚ) + 0) 2 = 2
    simp only [MetadataStore.pyRound, MetadataStore.pyRoundHalfEven]
    norm_num

/-- Witness for claim C2 on the two-process example snapshot. -/
theorem claim_C2_witness :
    parentEntries exampleMap ≠ []
    ∧ (∃ agg, get_process_metrics zeroProbes exampleMap = some agg
        ∧ agg.process_count = (parentEntries exampleMap).length
        ∧ agg.cpu_usage =
            MetadataStore.pyRound ((parentEntries exampleMap).map (fun e => e.2.cpu)).sum 2
        ∧ agg.memory_usage =
            MetadataStore.pyRound ((parentEntries exampleMap).map (fun e => e.2.memory)).sum 2) :=
  ⟨by decide, claim_C2.1 zeroProbes exampleMap (by decide)⟩

end ProcessMonitorTheorems

section MigrationTheorems

open MetadataStore

/-- Auxiliary: recording a schema version makes it the current version. -/
theorem current_after_set (v : String) (s : MetadataStore.DbState) :
    _get_current_schema_version (_set_schema_version v s) = some v := by
  by_cases h : "schema_version" ∈ s.tables <;>
    simp [_set_schema_version, _get_current_schema_version, h, List.getLast?_concat]

/-- Claim C3: the migration state machine takes an empty database to the
configured target version ("1.0" or "2.0"), creating the six canonical
tables; each version transition appends exactly one `schema_version` row;
and when the current version already equals the target, migration performs
no transition and appends no row. -/
theorem claim_C3 :
    (_run_migrations "1.0" emptyDb
      = ⟨canonicalTables, ["1.0"], false⟩)
  ∧ (_run_migrations "2.0" emptyDb
      = ⟨canonicalTables, ["1.0", "2.0"], true⟩)
  ∧ (∀ (s : DbState) (t : String),
        _get_current_schema_version s = some t → _run_migrations t s = s)
  ∧ (∀ s : DbState, (_migrate_to_version_1_0 s).versions.length
        = if s.tables = [] then s.versions.length + 1 else 1)
  ∧ (∀ s : DbState,
        (_migrate_to_version_2_0 s).versions.length = s.versions.length + 1)
  ∧ (∀ (s : DbState) (t : String), _get_current_schema_version s = none →
        (t = "1.0" ∨ t = "2.0") →
        _get_current_schema_version (_run_migrations t s) = some t)
  ∧ (∀ s : DbState, _get_current_schema_version s = some "1.0" →
        _get_current_schema_version (_run_migrations "2.0" s) = some "2.0") := by
  refine ⟨by decide, by decide, ?_, ?_, ?_, ?_, ?_⟩
  · intro s t h
    simp [_run_migrations, h]
  · intro s
    by_cases hs : s.tables = [] <;>
      simp [_migrate_to_version_1_0, _set_schema_version, emptyDb, hs]
  · intro s
    simp [_migrate_to_version_2_0, _set_schema_version]
  · intro s t h ht
    rcases ht with rfl | rfl
    · simp only [_run_migrations, h]
      rw [if_neg (by decide)]
      simp only [_migrate_to_version_1_0]
      exact current_after_set _ _
    · simp only [_run_migrations, h, if_pos rfl]
      simp only [_migrate_to_version_2_0, _migrate_to_version_1_0]
      exact current_after_set _ _
  · intro s h
    simp only [_run_migrations, h]
    rw [if_neg (by decide), if_pos (by simp)]
    simp only [_migrate_to_version_2_0]
    exact current_after_set _ _

/-- Witness for claim C3: re-running migration on a database already at
version 1.0 is a no-op. -/
theorem claim_C3_witness :
    _get_current_schema_version ⟨canonicalTables, ["1.0"], false⟩ = some "1.0"
    ∧ _run_migrations "1.0" ⟨canonicalTables, ["1.0"], false⟩
        = ⟨canonicalTables, ["1.0"], false⟩ :=
  ⟨by decide, claim_C3.2.2.1 ⟨canonicalTables, ["1.0"], false⟩ "1.0" (by decide)⟩

end MigrationTheorems

section SanitizeTheorems

open MetadataStore

/-- Auxiliary: a map whose function fixes every member is the identity. -/
theorem map_id_of_mem {α : Type} (f : α → α) :
    ∀ (l : List α), (∀ x ∈ l, f x = x) → l.map f = l := by
  intro l
  induction l with
  | nil => intro _; rfl
  | cons x t ih =>
    intro h
    simp only [List.map_cons, h x (List.mem_cons_self x t),
      ih fun y hy => h y (List.mem_cons_of_mem x hy)]

/-- Auxiliary: lowercasing fixes every sanitized-class character. -/
theorem pyLowerChar_eq_self {c : Char} (h : goodChar c = true) : pyLowerChar c = c := by
  rw [goodChar, Bool.or_eq_true] at h
  rcases h with h | h
  · have hp := of_decide_eq_true h
    rw [pyLowerChar, if_neg]
    rintro ⟨hA, hZ⟩
    rcases hp with ⟨h1, _⟩ | ⟨_, h2⟩
    · exact absurd (le_trans h1 hZ) (by decide)
    · exact absurd (le_trans hA h2) (by decide)
  · have hc : c = '_' := by simpa using h
    subst hc; decide

/-- Auxiliary: the non-alphanumeric replacement fixes every
sanitized-class character. -/
theorem replaceNonAlnum_eq_self {c : Char} (h : goodChar c = true) :
    replaceNonAlnum c = c := by
  rw [goodChar, Bool.or_eq_true] at h
  rcases h with h | h
  · rw [replaceNonAlnum, if_pos h]
  · have hc : c = '_' := by simpa using h
    subst hc; decide

/-- Auxiliary: the non-alphanumeric replacement always produces a
sanitized-class character. -/
theorem goodChar_replaceNonAlnum (c : Char) : goodChar (replaceNonAlnum c) = true := by
  rw [replaceNonAlnum]
  by_cases h : isLowerAlnum c = true
  · rw [if_pos h, goodChar, h, Bool.true_or]
  · rw [if_neg h]; decide

/-- Auxiliary: collapsing underscore runs keeps the head element. -/
theorem collapseUnderscores_head : ∀ (t : List Char) (b : Char),
    (collapseUnderscores (b :: t)).head? = some b := by
  intro t
  induction t with
  | nil => intro b; rfl
  | cons c t' ih =>
    intro b
    by_cases h : b = '_' ∧ c = '_'
    · simp only [collapseUnderscores, if_pos h]
      rw [ih c, h.1, h.2]
    · simp only [collapseUnderscores, if_neg h]
      rfl

/-- Auxiliary: `noUU` restricted to a tail. -/
theorem noUU_tail {a : Char} {t : List Char} (h : noUU (a :: t) = true) :
    noUU t = true := by
  cases t with
  | nil => rfl
  | cons b t' =>
    simp only [noUU, Bool.and_eq_true] at h
    exact h.2

/-- Auxiliary: collapsing underscore runs leaves no adjacent underscores. -/
theorem noUU_collapseUnderscores : ∀ l, noUU (collapseUnderscores l) = true := by
  intro l
  induction l with
  | nil => rfl
  | cons a t ih =>
    cases t with
    | nil => rfl
    | cons b t' =>
      by_cases h : a = '_' ∧ b = '_'
      · simp only [collapseUnderscores, if_pos h]
        exact ih
      · simp only [collapseUnderscores, if_neg h]
        cases hX : collapseUnderscores (b :: t') with
        | nil =>
          have hh := collapseUnderscores_head t' b
          rw [hX] at hh
          exact absurd hh (by simp)
        | cons x xs =>
          have hh := collapseUnderscores_head t' b
          rw [hX] at hh
          have hx : x = b := by simpa using hh
          subst hx
          simp only [noUU, Bool.and_eq_true]
          refine ⟨?_, ?_⟩
          · by_cases ha : a = '_'
            · have hb : ¬(x = '_') := fun hb => h ⟨ha, hb⟩
              simp [ha, hb]
            · simp [ha]
          · rw [← hX]
            exact ih

/-- Auxiliary: a list without adjacent underscores is a fixed point of the
collapse step. -/
theorem collapseUnderscores_eq_self : ∀ l, noUU l = true → collapseUnderscores l = l := by
  intro l
  induction l with
  | nil => intro _; rfl
  | cons a t ih =>
    intro h
    cases t with
    | nil => rfl
    | cons b t' =>
      have hab : ¬(a = '_' ∧ b = '_') := by
        simp only [noUU, Bool.and_eq_true] at h
        intro hc
        have h1 := h.1
        simp [hc.1, hc.2] at h1
      simp only [collapseUnderscores, if_neg hab]
      rw [ih (noUU_tail h)]

/-- Auxiliary: collapsing introduces no new characters. -/
theorem mem_collapseUnderscores : ∀ l (c : Char), c ∈ collapseUnderscores l → c ∈ l := by
  intro l
  induction l with
  | nil =>
    intro c h
    simp only [collapseUnderscores] at h
    exact absurd h (List.not_mem_nil c)
  | cons a t ih =>
    intro c h
    cases t with
    | nil => exact h
    | cons b t' =>
      by_cases hab : a = '_' ∧ b = '_'
      · simp only [collapseUnderscores, if_pos hab] at h
        exact List.mem_cons_of_mem a (ih c h)
      · simp only [collapseUnderscores, if_neg hab] at h
        rcases List.mem_cons.1 h with rfl | h2
        · exact List.mem_cons_self _ _
        · exact List.mem_cons_of_mem a (ih c h2)

/-- Auxiliary: one step of trailing-underscore removal is either empty or
keeps the head. -/
theorem stripTrailing_cases (c : Char) (t : List Char) :
    stripTrailing (c :: t) = [] ∨ stripTrailing (c :: t) = c :: stripTrailing t := by
  by_cases h : stripTrailing t = [] ∧ c = '_'
  · left
    simp only [stripTrailing]
    rw [if_pos h]
  · right
    simp only [stripTrailing]
    rw [if_neg h]

/-- Auxiliary: trailing-underscore removal introduces no new characters. -/
theorem mem_stripTrailing : ∀ l (c : Char), c ∈ stripTrailing l → c ∈ l := by
  intro l
  induction l with
  | nil => intro c h; exact absurd h (List.not_mem_nil c)
  | cons x t ih =>
    intro c h
    rcases stripTrailing_cases x t with he | he
    · rw [he] at h
      exact absurd h (List.not_mem_nil c)
    · rw [he] at h
      rcases List.mem_cons.1 h with rfl | h2
      · exact List.mem_cons_self _ _
      · exact List.mem_cons_of_mem x (ih c h2)

/-- Auxiliary: trailing-underscore removal keeps the head when the result
is non-empty. -/
theorem stripTrailing_head : ∀ (l : List Char) (d : Char) (t2 : List Char),
    stripTrailing l = d :: t2 → l.head? = some d := by
  intro l d t2 h
  cases l with
  | nil => simp only [stripTrailing] at h; exact absurd h (by simp)
  | cons x t =>
    rcases stripTrailing_cases x t with he | he
    · rw [he] at h
      exact absurd h (by simp)
    · rw [he] at h
      injection h with h1 _
      rw [h1]
      rfl

/-- Auxiliary: trailing-underscore removal preserves the absence of
adjacent underscores. -/
theorem noUU_stripTrailing : ∀ l, noUU l = true → noUU (stripTrailing l) = true := by
  intro l
  induction l with
  | nil => intro _; rfl
  | cons c t ih =>
    intro h
    rcases stripTrailing_cases c t with he | he
    · rw [he]; rfl
    · rw [he]
      cases hst : stripTrailing t with
      | nil => rfl
      | cons d t2 =>
        have hhead : t.head? = some d := stripTrailing_head t d t2 hst
        cases t with
        | nil => exact absurd hhead (by simp)
        | cons y t3 =>
          have hyd : y = d := by simpa using hhead
          subst hyd
          simp only [noUU, Bool.and_eq_true]
          refine ⟨?_, ?_⟩
          · simp only [noUU, Bool.and_eq_true] at h
            exact h.1
          · have h2 := ih (noUU_tail h)
            rw [hst] at h2
            exact h2

/-- Auxiliary: trailing-underscore removal never ends in an underscore. -/
theorem stripTrailing_getLast? : ∀ l : List Char, (stripTrailing l).getLast? ≠ some '_' := by
  intro l
  induction l with
  | nil => simp [stripTrailing]
  | cons c t ih =>
    by_cases h : stripTrailing t = [] ∧ c = '_'
    · simp only [stripTrailing]
      rw [if_pos h]
      simp
    · simp only [stripTrailing]
      rw [if_neg h]
      cases hst : stripTrailing t with
      | nil =>
        have hc : ¬(c = '_') := fun hc => h ⟨hst, hc⟩
        simp [hc]
      | cons d t2 =>
        rw [List.getLast?_cons_cons, ← hst]
        exact ih

/-- Auxiliary: a list that does not end in an underscore is a fixed point
of trailing-underscore removal. -/
theorem stripTrailing_eq_self : ∀ l : List Char, l.getLast? ≠ some '_' → stripTrailing l = l := by
  intro l
  induction l with
  | nil => intro _; rfl
  | cons x t ih =>
    intro h
    cases t with
    | nil =>
      have hx : ¬(x = '_') := by simpa using h
      simp only [stripTrailing]
      rw [if_neg (fun hc => hx hc.2)]
    | cons y t2 =>
      rw [List.getLast?_cons_cons] at h
      have ht := ih h
      have hdef : stripTrailing (x :: y :: t2)
          = if stripTrailing (y :: t2) = [] ∧ x = '_' then []
            else x :: stripTrailing (y :: t2) := rfl
      rw [hdef, ht, if_neg (fun hc => List.cons_ne_nil y t2 hc.1)]

/-- Auxiliary: the head of a `dropWhile` result fails the predicate. -/
theorem dropWhile_head_false {p : Char → Bool} : ∀ (l : List Char) (c : Char) (t : List Char),
    l.dropWhile p = c :: t → p c = false := by
  intro l
  induction l with
  | nil => intro c t h; exact absurd h (by simp)
  | cons x l2 ih =>
    intro c t h
    by_cases hp : p x = true
    · rw [List.dropWhile_cons, if_pos hp] at h
      exact ih c t h
    · rw [List.dropWhile_cons, if_neg hp] at h
      injection h with h1 _
      rw [← h1]
      exact Bool.eq_false_iff.mpr hp

/-- Auxiliary: `dropWhile` preserves the absence of adjacent underscores. -/
theorem noUU_dropWhile {p : Char → Bool} : ∀ l, noUU l = true → noUU (l.dropWhile p) = true := by
  intro l
  induction l with
  | nil => intro _; rfl
  | cons x t ih =>
    intro h
    by_cases hp : p x = true
    · rw [List.dropWhile_cons, if_pos hp]
      exact ih (noUU_tail h)
    · rw [List.dropWhile_cons, if_neg hp]
      exact h

/-- Auxiliary: prepending the `metric_` marker to a sanitized body yields a
sanitized list. -/
theorem isSanitized_metric_append (c : Char) (t : List Char)
    (hall : ∀ x ∈ c :: t, goodChar x = true) (hnu : noUU (c :: t) = true)
    (hc : (c == '_') = false) (hlast : (c :: t).getLast? ≠ some '_') :
    isSanitized ("metric_".data ++ c :: t) = true := by
  show isSanitized ('m' :: 'e' :: 't' :: 'r' :: 'i' :: 'c' :: '_' :: c :: t) = true
  simp only [isSanitized, noUU, List.all_cons, List.getLast?_cons_cons,
    Bool.and_eq_true, Bool.not_eq_true']
  refine ⟨⟨⟨⟨by decide, by decide⟩, by decide, by decide, by decide, by decide,
    by decide, by decide, by decide, ?_, ?_⟩, by decide, by decide, by decide,
    by decide, by decide, by decide, ?_, hnu⟩, ?_⟩
  · exact hall c (List.mem_cons_self c t)
  · exact List.all_eq_true.2 fun x hx => hall x (List.mem_cons_of_mem c hx)
  · simp [hc]
  · cases hgl : (c :: t).getLast? with
    | none => rfl
    | some x =>
      have hx : ¬(x = '_') := fun he => hlast (by rw [hgl, he])
      simp [hx]

/-- Auxiliary: every sanitized list is a fixed point of the sanitization
pipeline. -/
theorem sanitizeChars_fixed (l : List Char) (h : isSanitized l = true) :
    sanitizeChars l = l := by
  cases l with
  | nil => simp [isSanitized] at h
  | cons c t =>
    simp only [isSanitized, Bool.and_eq_true, Bool.not_eq_true'] at h
    obtain ⟨⟨⟨⟨hc, hd⟩, hall⟩, hnu⟩, hl⟩ := h
    have hgood : ∀ x ∈ c :: t, goodChar x = true := List.all_eq_true.mp hall
    have hl2 : (c :: t).getLast? ≠ some '_' := by simpa using hl
    have e1 : (c :: t).map pyLowerChar = c :: t :=
      map_id_of_mem _ _ fun x hx => pyLowerChar_eq_self (hgood x hx)
    have e2 : (c :: t).map replaceNonAlnum = c :: t :=
      map_id_of_mem _ _ fun x hx => replaceNonAlnum_eq_self (hgood x hx)
    have e3 : collapseUnderscores (c :: t) = c :: t :=
      collapseUnderscores_eq_self _ hnu
    have e4 : stripUnderscores (c :: t) = c :: t := by
      rw [stripUnderscores, List.dropWhile_cons, if_neg (by simp [hc])]
      exact stripTrailing_eq_self _ hl2
    simp only [sanitizeChars]
    rw [if_neg (List.cons_ne_nil c t), e1, e2, e3, e4]
    simp [hd]

/-- Auxiliary: the sanitization pipeline always produces a sanitized list. -/
theorem isSanitized_sanitizeChars (l : List Char) :
    isSanitized (sanitizeChars l) = true := by
  by_cases hl : l = []
  · subst hl
    decide
  · have hall2 : ∀ x ∈ (l.map pyLowerChar).map replaceNonAlnum, goodChar x = true := by
      intro x hx
      obtain ⟨y, _, rfl⟩ := List.mem_map.1 hx
      exact goodChar_replaceNonAlnum y
    have hall3 : ∀ x ∈ collapseUnderscores ((l.map pyLowerChar).map replaceNonAlnum),
        goodChar x = true :=
      fun x hx => hall2 x (mem_collapseUnderscores _ x hx)
    have hnu3 : noUU (collapseUnderscores ((l.map pyLowerChar).map replaceNonAlnum)) = true :=
      noUU_collapseUnderscores _
    have hnu4 : noUU (stripUnderscores
        (collapseUnderscores ((l.map pyLowerChar).map replaceNonAlnum))) = true := by
      rw [stripUnderscores]
      exact noUU_stripTrailing _ (noUU_dropWhile _ hnu3)
    have hall4 : ∀ x ∈ stripUnderscores
        (collapseUnderscores ((l.map pyLowerChar).map replaceNonAlnum)), goodChar x = true := by
      intro x hx
      rw [stripUnderscores] at hx
      exact hall3 x ((List.dropWhile_sublist _).subset (mem_stripTrailing _ x hx))
    have hlast4 : (stripUnderscores
        (collapseUnderscores ((l.map pyLowerChar).map replaceNonAlnum))).getLast?
          ≠ some '_' := by
      rw [stripUnderscores]
      exact stripTrailing_getLast? _
    cases hr4 : stripUnderscores
        (collapseUnderscores ((l.map pyLowerChar).map replaceNonAlnum)) with
    | nil =>
      have hval : sanitizeChars l = "unknown".data := by
        simp only [sanitizeChars, if_neg hl, hr4]
        simp
      rw [hval]
      decide
    | cons c t =>
      rw [hr4] at hnu4 hall4 hlast4
      have hr4s : stripTrailing
          ((collapseUnderscores ((l.map pyLowerChar).map replaceNonAlnum)).dropWhile
            (fun c => c == '_')) = c :: t := hr4
      have hhead := stripTrailing_head _ c t hr4s
      have hc : (c == '_') = false := by
        cases hdw : (collapseUnderscores ((l.map pyLowerChar).map replaceNonAlnum)).dropWhile
            (fun c => c == '_') with
        | nil => rw [hdw] at hhead; exact absurd hhead (by simp)
        | cons x xs =>
          rw [hdw] at hhead
          have hx : x = c := by simpa using hhead
          subst hx
          exact dropWhile_head_false _ x xs hdw
      by_cases hdig : isAsciiDigit c = true
      · have hval : sanitizeChars l = "metric_".data ++ c :: t := by
          simp only [sanitizeChars, if_neg hl, hr4]
          simp [hdig]
        rw [hval]
        exact isSanitized_metric_append c t hall4 hnu4 hc hlast4
      · have hdig2 : isAsciiDigit c = false := Bool.eq_false_iff.mpr hdig
        have hval : sanitizeChars l = c :: t := by
          simp only [sanitizeChars, if_neg hl, hr4]
          simp [hdig2]
        rw [hval]
        simp only [isSanitized, Bool.and_eq_true, Bool.not_eq_true']
        exact ⟨⟨⟨⟨hc, hdig2⟩, List.all_eq_true.2 hall4⟩, hnu4⟩,
          beq_eq_false_iff_ne.2 hlast4⟩

/-- Claim C5: `sanitize_for_metrics` is idempotent. -/
theorem claim_C5 :
    ∀ s : String, sanitize_for_metrics (sanitize_for_metrics s) = sanitize_for_metrics s := by
  intro s
  show (⟨sanitizeChars (sanitizeChars s.data)⟩ : String) = ⟨sanitizeChars s.data⟩
  rw [sanitizeChars_fixed _ (isSanitized_sanitizeChars s.data)]

/-- Auxiliary: the spec's right-fold collapse computes the source's
collapse of underscore runs. -/
theorem collapseSpec_eq : ∀ l, collapseSpec l = collapseUnderscores l := by
  intro l
  induction l with
  | nil => rfl
  | cons a t ih =>
    cases t with
    | nil => simp [collapseSpec, collapseUnderscores]
    | cons b t2 =>
      have hstep : collapseSpec (a :: b :: t2)
          = if a = '_' ∧ (collapseSpec (b :: t2)).head? = some '_' then collapseSpec (b :: t2)
            else a :: collapseSpec (b :: t2) := rfl
      rw [hstep, ih, collapseUnderscores_head t2 b]
      by_cases hab : a = '_' ∧ b = '_'
      · rw [if_pos ⟨hab.1, by rw [hab.2]⟩]
        simp only [collapseUnderscores, if_pos hab]
      · rw [if_neg (fun hcond => hab ⟨hcond.1, by simpa using hcond.2⟩)]
        simp only [collapseUnderscores, if_neg hab]

/-- Auxiliary: trailing-underscore removal on a snoc list. -/
theorem stripTrailing_append_single : ∀ (xs : List Char) (a : Char),
    stripTrailing (xs ++ [a]) = if a = '_' then stripTrailing xs else xs ++ [a] := by
  intro xs
  induction xs with
  | nil =>
    intro a
    by_cases ha : a = '_' <;> simp [stripTrailing, ha]
  | cons c xs2 ih =>
    intro a
    have hdef : stripTrailing (c :: (xs2 ++ [a]))
        = if stripTrailing (xs2 ++ [a]) = [] ∧ c = '_' then []
          else c :: stripTrailing (xs2 ++ [a]) := rfl
    by_cases ha : a = '_'
    · rw [List.cons_append, hdef, ih, if_pos ha, if_pos ha]
      rfl
    · rw [List.cons_append, hdef, ih, if_neg ha,
        if_neg (fun hcond => by simpa using hcond.1), if_neg ha]

/-- Auxiliary: reversing, dropping leading underscores and reversing back
is the same as removing trailing underscores. -/
theorem reverse_dropWhile_reverse : ∀ (m : List Char),
    (m.reverse.dropWhile (fun c => c == '_')).reverse = stripTrailing m := by
  intro m
  induction m using List.reverseRecOn with
  | nil => rfl
  | append_singleton xs a ih =>
    have h1 : (xs ++ [a]).reverse = a :: xs.reverse := by simp
    rw [h1, List.dropWhile_cons]
    by_cases ha : (a == '_') = true
    · rw [if_pos ha, ih, stripTrailing_append_single, if_pos (by simpa using ha)]
    · rw [if_neg ha, stripTrailing_append_single, if_neg (by simpa using ha)]
      simp

/-- Auxiliary: the spec's trim step equals the source's `strip('_')`. -/
theorem trimSpec_eq : ∀ l, trimSpec l = stripUnderscores l := by
  intro l
  rw [trimSpec, stripUnderscores, reverse_dropWhile_reverse]

/-- Auxiliary: packaging the final empty-result check at string level. -/
theorem string_mk_ite (r5 : List Char) :
    (⟨if r5 = [] then "unknown".data else r5⟩ : String)
      = if r5 = [] then "unknown" else ⟨r5⟩ := by
  by_cases h : r5 = [] <;> simp [h]

/-- Auxiliary: the source's sanitizer computes the spec's six-step
reference algorithm. -/
theorem sanitize_eq_sanitizeSpec : ∀ s : String, sanitize_for_metrics s = sanitizeSpec s := by
  intro s
  cases s with
  | mk data =>
    cases data with
    | nil => decide
    | cons c t =>
      show (⟨sanitizeChars (c :: t)⟩ : String) = sanitizeSpec ⟨c :: t⟩
      simp only [sanitizeChars, sanitizeSpec, if_neg (List.cons_ne_nil c t)]
      rw [collapseSpec_eq, trimSpec_eq]
      exact string_mk_ite _

/-- Claim C6: `sanitize_for_metrics` computes the six-step reference
algorithm (lowercase; replace non-`[a-z0-9]` by `'_'`; collapse `'_'`
runs; trim; `metric_` marker for a leading digit; `unknown` for empty),
and in particular maps `""` to `"unknown"`, `"123abc"` to
`"metric_123abc"`, and `"A--B__C"` to `"a_b_c"`. -/
theorem claim_C6 :
    (∀ s : String, sanitize_for_metrics s = sanitizeSpec s)
  ∧ sanitize_for_metrics "" = "unknown"
  ∧ sanitize_for_metrics "123abc" = "metric_123abc"
  ∧ sanitize_for_metrics "A--B__C" = "a_b_c" :=
  ⟨sanitize_eq_sanitizeSpec, by decide, by decide, by decide⟩

end SanitizeTheorems

section StoreTheorems

open MetadataStore

/-- Claim C9: on a storage error every upsert falls back to the freshly
generated opaque identifier (plus the derived display name where one is
returned) instead of propagating the exception, so a storage failure never
aborts the caller's collection cycle. -/
theorem claim_C9 :
    (∀ (hostname freshId : String),
        get_or_create_host (.error ()) hostname freshId = (freshId, .error ()))
  ∧ (∀ (namespace_ freshId : String),
        get_or_create_service_namespace (.error ()) namespace_ freshId
          = (freshId, .error ()))
  ∧ (∀ (full_name version description : String) (host_id namespace_id : Option String)
        (freshId : String),
        get_or_create_service (.error ()) full_name version description
            host_id namespace_id freshId
          = ((freshId, _extract_service_display_name full_name), .error ()))
  ∧ (∀ (includeOtelType : Bool) (service_id name unit format_type : String)
        (decimal_places : ℤ) (is_percentage is_counter : Bool) (otel_type freshId : String),
        get_or_create_metric includeOtelType (.error ()) service_id name unit format_type
            decimal_places is_percentage is_counter otel_type freshId
          = ((freshId, _format_metric_name name), .error ())) :=
  ⟨fun _ _ => rfl, fun _ _ => rfl, fun _ _ _ _ _ _ => rfl,
   fun _ _ _ _ _ _ _ _ _ _ => rfl⟩

end StoreTheorems

section ReconcileTheorems

open MetadataStore

/-- Auxiliary: one metric upsert on intact storage — it succeeds, it keeps
the identifier list (hit) or appends the fresh identifier (miss), it leaves
every other service's rows unchanged, it preserves existing
`(service, name)` pairs, it establishes the upserted pair, and it carries
every row's `id`, `name`, `service_id` and `is_counter` through. -/
theorem upsert_step (io : Bool) (tbl : List MetricRow) (sid n u ft : String) (dp : ℤ)
    (ip ic : Bool) (ot fid : String)
    (hnd : (tbl.map fun r => r.id).Nodup) :
    ∃ tbl2, (get_or_create_metric io (.ok tbl) sid n u ft dp ip ic ot fid).2 = .ok tbl2
      ∧ ((tbl2.map fun r => r.id) = (tbl.map fun r => r.id)
         ∨ (tbl2.map fun r => r.id) = (tbl.map fun r => r.id) ++ [fid])
      ∧ tbl2.filter (fun r => !(r.service_id == sid))
          = tbl.filter (fun r => !(r.service_id == sid))
      ∧ (∀ n0 : String, (∃ row ∈ tbl, row.service_id = sid ∧ row.name = n0) →
            (∃ row ∈ tbl2, row.service_id = sid ∧ row.name = n0))
      ∧ (∃ row ∈ tbl2, row.service_id = sid ∧ row.name = n)
      ∧ (∀ row ∈ tbl, ∃ row2 ∈ tbl2, row2.id = row.id ∧ row2.name = row.name
            ∧ row2.service_id = row.service_id ∧ row2.is_counter = row.is_counter) := by
  cases hfind : tbl.find? (fun r => r.service_id == sid && r.name == n) with
  | none =>
    refine ⟨tbl ++ [{
        id := fid
        service_id := sid
        name := n
        display_name := _format_metric_name n
        unit := u
        format_type := ft
        decimal_places := dp
        is_percentage := ip
        is_counter := ic
        otel_type := if io then ot else "Gauge" }], ?_, ?_, ?_, ?_, ?_, ?_⟩
    · simp only [get_or_create_metric, hfind]
    · right
      simp
    · rw [List.filter_append]
      simp
    · intro n0 h0
      obtain ⟨row, hm, hp⟩ := h0
      exact ⟨row, List.mem_append_left _ hm, hp⟩
    · exact ⟨_, List.mem_append_right _ (List.mem_cons_self _ _), rfl, rfl⟩
    · intro row hm
      exact ⟨row, List.mem_append_left _ hm, rfl, rfl, rfl, rfl⟩
  | some r =>
    have hrmem : r ∈ tbl := List.mem_of_find?_eq_some hfind
    have hrpred := List.find?_some hfind
    simp only [Bool.and_eq_true, beq_iff_eq] at hrpred
    set f : MetricRow → MetricRow := fun row =>
      if row.id == r.id then
        { row with
          display_name := _format_metric_name n
          unit := u
          format_type := ft
          decimal_places := dp
          is_percentage := ip
          otel_type := if io then ot else row.otel_type }
      else row with hf
    have hid : ∀ row : MetricRow, (f row).id = row.id := by
      intro row
      rw [hf]
      by_cases h : (row.id == r.id) = true <;> simp [h]
    have hname : ∀ row : MetricRow, (f row).name = row.name := by
      intro row
      rw [hf]
      by_cases h : (row.id == r.id) = true <;> simp [h]
    have hsid : ∀ row : MetricRow, (f row).service_id = row.service_id := by
      intro row
      rw [hf]
      by_cases h : (row.id == r.id) = true <;> simp [h]
    have hic2 : ∀ row : MetricRow, (f row).is_counter = row.is_counter := by
      intro row
      rw [hf]
      by_cases h : (row.id == r.id) = true <;> simp [h]
    have hfix : ∀ row : MetricRow, row.id ≠ r.id → f row = row := by
      intro row hne
      rw [hf]
      simp [beq_eq_false_iff_ne.2 hne]
    refine ⟨tbl.map f, ?_, ?_, ?_, ?_, ?_, ?_⟩
    · simp only [get_or_create_metric, hfind]
    · left
      rw [List.map_map]
      exact List.map_congr_left fun row _ => hid row
    · rw [List.filter_map]
      have h1 : tbl.filter ((fun r => !(r.service_id == sid)) ∘ f)
          = tbl.filter (fun r => !(r.service_id == sid)) := by
        apply List.filter_congr
        intro row _
        show (!((f row).service_id == sid)) = (!(row.service_id == sid))
        rw [hsid row]
      rw [h1]
      apply map_id_of_mem
      intro row hrow
      obtain ⟨hrowm, hrowp⟩ := List.mem_filter.1 hrow
      apply hfix
      intro hideq
      have heq : row = r := List.inj_on_of_nodup_map hnd hrowm hrmem hideq
      rw [heq] at hrowp
      rw [hrpred.1] at hrowp
      simp at hrowp
    · intro n0 h0
      obtain ⟨row, hm, hp1, hp2⟩ := h0
      exact ⟨f row, List.mem_map_of_mem f hm, by rw [hsid row]; exact hp1,
        by rw [hname row]; exact hp2⟩
    · exact ⟨f r, List.mem_map_of_mem f hrmem, by rw [hsid r]; exact hrpred.1,
        by rw [hname r]; exact hrpred.2⟩
    · intro row hm
      exact ⟨f row, List.mem_map_of_mem f hm, hid row, hname row, hsid row, hic2 row⟩

/-- Auxiliary: the reconciliation upsert loop on intact storage — it
succeeds; the identifier list grows only by a selection of the supplied
fresh identifiers; other services' rows are untouched; existing
`(service, name)` pairs survive; every catalog entry's pair exists
afterwards; and each original row's `id`, `name`, `service_id` and
`is_counter` are carried through. -/
theorem upsertCatalog_ok (io : Bool) (sid : String) :
    ∀ (cat : List CatalogEntry) (fids : List String) (tbl : List MetricRow),
    cat.length ≤ fids.length →
    (((tbl.map fun r => r.id) ++ fids).Nodup) →
    ∃ tbl2, upsertCatalog io sid cat fids (.ok tbl) = .ok tbl2
      ∧ (∃ extra, (tbl2.map fun r => r.id) = (tbl.map fun r => r.id) ++ extra
          ∧ extra.Sublist fids)
      ∧ tbl2.filter (fun r => !(r.service_id == sid))
          = tbl.filter (fun r => !(r.service_id == sid))
      ∧ (∀ n0, (∃ row ∈ tbl, row.service_id = sid ∧ row.name = n0) →
            (∃ row ∈ tbl2, row.service_id = sid ∧ row.name = n0))
      ∧ (∀ e ∈ cat, ∃ row ∈ tbl2, row.service_id = sid ∧ row.name = e.name)
      ∧ (∀ row ∈ tbl, ∃ row2 ∈ tbl2, row2.id = row.id ∧ row2.name = row.name
            ∧ row2.service_id = row.service_id ∧ row2.is_counter = row.is_counter) := by
  intro cat
  induction cat with
  | nil =>
    intro fids tbl _ _
    exact ⟨tbl, rfl, ⟨[], by simp, List.nil_sublist _⟩, rfl, fun n0 h => h,
      fun e he => absurd he (List.not_mem_nil e),
      fun row hm => ⟨row, hm, rfl, rfl, rfl, rfl⟩⟩
  | cons e rest ih =>
    intro fids tbl hlen hnd
    cases fids with
    | nil =>
      exfalso
      simp only [List.length_cons, List.length_nil] at hlen
      omega
    | cons fid fids2 =>
      have hnd_tbl : (tbl.map fun r => r.id).Nodup := (List.nodup_append.1 hnd).1
      obtain ⟨tbl2, hstep_eq, hids, hfil, hpres, hnew, htrace⟩ :=
        upsert_step io tbl sid e.name e.unit
          (if e.is_counter then "counter"
           else if e.is_percentage then "percentage" else "number")
          e.decimals e.is_percentage e.is_counter e.otel_type fid hnd_tbl
      have hnd2 : ((tbl2.map fun r => r.id) ++ fids2).Nodup := by
        rcases hids with hids | hids
        · rw [hids]
          refine List.Sublist.nodup ?_ hnd
          exact List.Sublist.append_left ((List.Sublist.refl fids2).cons fid) _
        · rw [hids, List.append_assoc]
          exact hnd
      have hlen2 : rest.length ≤ fids2.length := by
        simp only [List.length_cons] at hlen
        omega
      obtain ⟨tbl3, hloop_eq, ⟨extra, hex, hexsub⟩, hfil2, hpres2, hcat2, htrace2⟩ :=
        ih fids2 tbl2 hlen2 hnd2
      refine ⟨tbl3, ?_, ?_, ?_, ?_, ?_, ?_⟩
      · simp only [upsertCatalog, List.headD_cons, List.tail_cons, sync_metric_from_toml]
        rw [hstep_eq]
        exact hloop_eq
      · rcases hids with hids | hids
        · exact ⟨extra, by rw [hex, hids], hexsub.cons fid⟩
        · refine ⟨fid :: extra, ?_, List.Sublist.cons₂ fid hexsub⟩
          rw [hex, hids, List.append_assoc]
          rfl
      · rw [hfil2, hfil]
      · intro n0 h0
        exact hpres2 n0 (hpres n0 h0)
      · intro e2 he2
        rcases List.mem_cons.1 he2 with rfl | h2
        · exact hpres2 e2.name hnew
        · exact hcat2 e2 h2
      · intro row hm
        obtain ⟨row2, hm2, h1, h2, h3, h4⟩ := htrace row hm
        obtain ⟨row3, hm3, g1, g2, g3, g4⟩ := htrace2 row2 hm2
        exact ⟨row3, hm3, g1.trans h1, g2.trans h2, g3.trans h3, g4.trans h4⟩

/-- Auxiliary: under unique row identifiers, the delete-by-id loop of
`remove_obsolete_metrics` keeps exactly the rows that are not obsolete. -/
theorem remove_obsolete_ok (tbl : List MetricRow) (sid : String) (names : List String)
    (hnd : (tbl.map fun r => r.id).Nodup) :
    (remove_obsolete_metrics (.ok tbl) sid names).2
      = .ok (tbl.filter fun r => !(r.service_id == sid && !(names.contains r.name))) := by
  simp only [remove_obsolete_metrics]
  congr 1
  apply List.filter_congr
  intro r hr
  have hany : ((tbl.filter fun row => row.service_id == sid
        && !(names.contains row.name))).any (fun x => x.id == r.id)
      = (r.service_id == sid && !(names.contains r.name)) := by
    by_cases hq : (r.service_id == sid && !(names.contains r.name)) = true
    · rw [hq]
      exact List.any_eq_true.2 ⟨r, List.mem_filter.2 ⟨hr, hq⟩, by simp⟩
    · have hq2 : (r.service_id == sid && !(names.contains r.name)) = false :=
        Bool.eq_false_iff.2 hq
      rw [hq2]
      apply List.any_eq_false.2
      intro x hx hxid
      obtain ⟨hxm, hxp⟩ := List.mem_filter.1 hx
      have hxr : x = r := List.inj_on_of_nodup_map hnd hxm hr (by simpa using hxid)
      rw [hxr] at hxp
      exact hq hxp
  rw [hany]

/-- Claim C4 (amended): after reconciling a service against an expanded
catalog, the set of metric names stored for the service equals the
catalog's names; each upsert of an already-existing metric refreshes its
stored `otel_type`, `decimal_places` and `is_percentage` to the supplied
values while keeping the previously stored `is_counter` (the UPDATE built
by `_build_metrics_query` does not set `is_counter`); and rows belonging
to every other service are left unchanged. -/
theorem claim_C4 :
    (∀ (tbl : List MetricRow) (sid n u ft : String) (dp : ℤ) (ip ic : Bool)
        (ot fid : String) (r : MetricRow),
        (tbl.map fun row => row.id).Nodup →
        tbl.find? (fun row => row.service_id == sid && row.name == n) = some r →
        ∃ tbl2, (get_or_create_metric true (.ok tbl) sid n u ft dp ip ic ot fid).2
            = .ok tbl2
          ∧ ∃ row2 ∈ tbl2, row2.id = r.id ∧ row2.otel_type = ot
              ∧ row2.decimal_places = dp ∧ row2.is_percentage = ip
              ∧ row2.is_counter = r.is_counter ∧ row2.name = r.name
              ∧ row2.service_id = r.service_id)
  ∧ (∀ (tbl : List MetricRow) (sid : String) (catalog : List CatalogEntry)
        (freshIds : List String),
        catalog.length ≤ freshIds.length →
        (((tbl.map fun r => r.id) ++ freshIds).Nodup) →
        ∃ tblR, reconcile true (.ok tbl) sid catalog freshIds = .ok tblR
          ∧ (∀ r ∈ tblR, r.service_id = sid → r.name ∈ catalog.map fun e => e.name)
          ∧ (∀ n ∈ catalog.map (fun e => e.name),
               ∃ r ∈ tblR, r.service_id = sid ∧ r.name = n)
          ∧ tblR.filter (fun r => !(r.service_id == sid))
              = tbl.filter (fun r => !(r.service_id == sid))
          ∧ (∀ row ∈ tbl, row.service_id = sid →
               row.name ∈ catalog.map (fun e => e.name) →
               ∃ row2 ∈ tblR, row2.id = row.id ∧ row2.is_counter = row.is_counter)) := by
  constructor
  · intro tbl sid n u ft dp ip ic ot fid r hnd hfind
    have hrmem := List.mem_of_find?_eq_some hfind
    refine ⟨tbl.map (fun row => if row.id == r.id then
        { row with
          display_name := _format_metric_name n
          unit := u
          format_type := ft
          decimal_places := dp
          is_percentage := ip
          otel_type := if (true : Bool) = true then ot else row.otel_type }
        else row), ?_, ?_⟩
    · simp only [get_or_create_metric, hfind]
    · refine ⟨_, List.mem_map_of_mem _ hrmem, ?_, ?_, ?_, ?_, ?_, ?_, ?_⟩ <;> simp
  · intro tbl sid catalog freshIds hlen hnd
    obtain ⟨tbl2, hloop, ⟨extra, hex, hexsub⟩, hfil, hpres, hcat, htrace⟩ :=
      upsertCatalog_ok true sid catalog freshIds tbl hlen hnd
    have hnd2 : (tbl2.map fun r => r.id).Nodup := by
      rw [hex]
      refine List.Sublist.nodup ?_ hnd
      exact List.Sublist.append_left hexsub _
    have hrem := remove_obsolete_ok tbl2 sid (catalog.map fun e => e.name) hnd2
    refine ⟨tbl2.filter (fun r =>
        !(r.service_id == sid && !((catalog.map fun e => e.name).contains r.name))),
      ?_, ?_, ?_, ?_, ?_⟩
    · show (remove_obsolete_metrics (upsertCatalog true sid catalog freshIds (.ok tbl))
          sid (catalog.map fun e => e.name)).2 = _
      rw [hloop]
      exact hrem
    · intro r hrR hsidr
      obtain ⟨hrm, hrp⟩ := List.mem_filter.1 hrR
      have hx : (r.service_id == sid
          && !((catalog.map fun e => e.name).contains r.name)) = false :=
        (Bool.not_eq_true' _) ▸ hrp
      rcases Bool.and_eq_false_iff.1 hx with hx1 | hx2
      · exact absurd hsidr (beq_eq_false_iff_ne.1 hx1)
      · have hcont : ((catalog.map fun e => e.name).contains r.name) = true := by
          cases hcc : ((catalog.map fun e => e.name).contains r.name) with
          | true => rfl
          | false => rw [hcc] at hx2; exact absurd hx2 (by simp)
        exact List.mem_of_elem_eq_true hcont
    · intro n hn
      obtain ⟨e, he, rfl⟩ := List.mem_map.1 hn
      obtain ⟨row, hrm, hrs, hrn⟩ := hcat e he
      refine ⟨row, List.mem_filter.2 ⟨hrm, ?_⟩, hrs, hrn⟩
      simp
      exact Or.inr ⟨e, he, hrn.symm⟩
    · rw [List.filter_filter]
      have hcg : tbl2.filter (fun a => (!(a.service_id == sid))
            && !(a.service_id == sid && !((catalog.map fun e => e.name).contains a.name)))
          = tbl2.filter (fun r => !(r.service_id == sid)) := by
        apply List.filter_congr
        intro row _
        cases hrow : (row.service_id == sid) with
        | true => simp [hrow]
        | false => simp [hrow]
      rw [hcg, hfil]
    · intro row hm hrsid hrname
      obtain ⟨row2, hm2, g1, g2, g3, g4⟩ := htrace row hm
      refine ⟨row2, List.mem_filter.2 ⟨hm2, ?_⟩, g1, g4⟩
      simp
      obtain ⟨a, ha, haname⟩ := List.mem_map.1 hrname
      exact Or.inr ⟨a, ha, haname.trans g2.symm⟩

/-- Counterexample to claim C4 as stated: upserting the existing metric
`("svc", "m")` with `is_counter = false` leaves the stored row's
`is_counter` at `true` — the claimed refresh of `is_counter` to the
supplied value does not happen. -/
theorem claim_C4_counterexample :
    (sync_metric_from_toml true (.ok [c4row true]) "svc" "m" "" "Gauge" 2
        false false "f1").2 = .ok [c4row true]
  ∧ (sync_metric_from_toml true (.ok [c4row true]) "svc" "m" "" "Gauge" 2
        false false "f1").2 ≠ .ok [c4row false] := by
  have h1 : (sync_metric_from_toml true (.ok [c4row true]) "svc" "m" "" "Gauge" 2
      false false "f1").2 = .ok [c4row true] := rfl
  refine ⟨h1, ?_⟩
  intro h
  have h2 : ([c4row true] : List MetricRow) = [c4row false] :=
    Except.ok.inj (h1.symm.trans h)
  injection h2 with h3 _
  have h4 := congrArg MetricRow.is_counter h3
  simp [c4row] at h4

/-- Witness for claim C4 on a one-row table and a two-entry catalog. -/
theorem claim_C4_witness :
    (c4catalog.length ≤ c4fresh.length
      ∧ ((([c4row true] : List MetricRow).map fun r => r.id) ++ c4fresh).Nodup)
    ∧ (∃ tblR, reconcile true (.ok [c4row true]) "svc" c4catalog c4fresh = .ok tblR
        ∧ (∀ r ∈ tblR, r.service_id = "svc" → r.name ∈ c4catalog.map fun e => e.name)
        ∧ (∀ n ∈ c4catalog.map (fun e => e.name),
             ∃ r ∈ tblR, r.service_id = "svc" ∧ r.name = n)
        ∧ tblR.filter (fun r => !(r.service_id == "svc"))
            = ([c4row true] : List MetricRow).filter (fun r => !(r.service_id == "svc"))
        ∧ (∀ row ∈ ([c4row true] : List MetricRow), row.service_id = "svc" →
             row.name ∈ c4catalog.map (fun e => e.name) →
             ∃ row2 ∈ tblR, row2.id = row.id ∧ row2.is_counter = row.is_counter)) :=
  ⟨⟨by decide, by decide⟩,
   claim_C4.2 [c4row true] "svc" c4catalog c4fresh (by decide) (by decide)⟩

end ReconcileTheorems

section TomlTheorems

open TomlUtils

/-- C8: expanding a catalog of metric definitions emits, for every templated
("indexed") definition with resolved source count and parsed range, one
concrete definition per index in the half-open range — an "auto" end
resolving to the source count exclusively, an integer end being inclusive
(parsed as end+1) — substituting the index for the placeholder in name and
description and stripping the pattern fields, while static definitions pass
through unchanged; in particular with a resolved core count of 4 and range
"0-auto" the expansion yields exactly cpu_core_0 through cpu_core_3. -/
theorem claim_C8 :
    (∀ (d : MetricDef) (cc : Option ℕ), d.pattern_type = none → expandOne d cc = some [d])
  ∧ (∀ (d : MetricDef) (rest : List MetricDef) (cc : Option ℕ) (chunk tl : List MetricDef),
        expandOne d cc = some chunk → expand_metric_patterns rest cc = some tl →
        expand_metric_patterns (d :: rest) cc = some (chunk ++ tl))
  ∧ (∀ (d : MetricDef) (cc : Option ℕ) (src rng : String) (s e : ℤ),
        d.pattern_type = some "indexed" → d.pattern_source = some src →
        d.pattern_range = some rng →
        _parse_range rng (if src = "cpu_count" then ((cc.getD 1 : ℕ) : ℤ) else 1) = some (s, e) →
        expandOne d cc = some ((rangeList s e).map (substIndex d)))
  ∧ (∀ (rng : String) (p0 p1 : List Char) (mc s : ℤ),
        splitOnChar '-' rng.data = [p0, p1] → parseInt? p0 = some s → p1 = "auto".data →
        _parse_range rng mc = some (s, mc))
  ∧ (∀ (rng : String) (p0 p1 : List Char) (mc s e : ℤ),
        splitOnChar '-' rng.data = [p0, p1] → parseInt? p0 = some s → p1 ≠ "auto".data →
        parseInt? p1 = some e →
        _parse_range rng mc = some (s, e + 1))
  ∧ expand_metric_patterns [cpuCoreTemplate] (some 4)
      = some [cpuCoreConcrete 0, cpuCoreConcrete 1, cpuCoreConcrete 2, cpuCoreConcrete 3] := by
  refine ⟨?_, ?_, ?_, ?_, ?_, by decide⟩
  · intro d cc h
    simp [expandOne, h]
  · intro d rest cc chunk tl h1 h2
    simp [expand_metric_patterns, h1, h2]
  · intro d cc src rng s e h1 h2 h3 h4
    simp only [expandOne, h1, h2, h3, if_pos rfl]
    rw [h4]
    simp
  · intro rng p0 p1 mc s hsplit hp0 hp1
    simp [_parse_range, hsplit, hp0, hp1]
  · intro rng p0 p1 mc s e hsplit hp0 hp1 hp1e
    simp [_parse_range, hsplit, hp0, hp1, hp1e]

/-- Closed instances of every hypothesised part of the C8 theorem: a static
definition passes through, the templated example expands through the range
map, "0-auto" parses exclusively against the resolved count, "2-5" parses
inclusively, and the one-element catalog concatenates its chunk. -/
theorem claim_C8_witness :
    expandOne (cpuCoreConcrete 0) (some 4) = some [cpuCoreConcrete 0]
  ∧ expandOne cpuCoreTemplate (some 4)
      = some ((rangeList 0 4).map (substIndex cpuCoreTemplate))
  ∧ _parse_range "0-auto" 4 = some (0, 4)
  ∧ _parse_range "2-5" 9 = some (2, 6)
  ∧ expand_metric_patterns [cpuCoreTemplate] (some 4)
      = some ((rangeList 0 4).map (substIndex cpuCoreTemplate) ++ []) :=
  ⟨claim_C8.1 (cpuCoreConcrete 0) (some 4) rfl,
   claim_C8.2.2.1 cpuCoreTemplate (some 4) "cpu_count" "0-auto" 0 4 rfl rfl rfl (by decide),
   claim_C8.2.2.2.1 "0-auto" "0".data "auto".data 4 0 (by decide) (by decide) rfl,
   claim_C8.2.2.2.2.1 "2-5" "2".data "5".data 9 2 5 (by decide) (by decide) (by decide) (by decide),
   claim_C8.2.1 cpuCoreTemplate [] (some 4)
     ((rangeList 0 4).map (substIndex cpuCoreTemplate)) [] (by decide) rfl⟩

end TomlTheorems
